import Mathlib

/-!
Verification development for the pandoc-spec pipeline builder.

The definitions below are a shallow embedding of the TypeScript sources:

* `src/options.ts` — option merging (`mergeOptions`, `isOptions`) over plain
  JSON-like objects (`Object.entries` iteration, array concatenation,
  duplicate removal for `variables` and `styles`);
* `src/pandoc-spec.ts` — the `arg` helper, the pipeline-stage assembly in
  `runPandoc`, the status aggregation (`codes.reduce`), the watch handler;
* `src/pipe-runner.ts` — the `close`-event handler of `PipeRunner.spawn`;
* `src/file.ts` — `copyFiles` path resolution.

JavaScript objects are modelled as association lists with distinct keys
(`JObj`); JSON values as the inductive `JValue`.  `Object.entries` becomes the
list of pairs, property read becomes `getKey`, property write becomes `setKey`
(replace in place, append when fresh, matching JS insertion-order semantics).
-/

/-- JSON-like runtime value (`JSON.parse` output / typed option values). -/
inductive JValue where
  | str (s : String)
  | bool (b : Bool)
  | num (n : Int)
  | arr (elems : List JValue)
  | obj (fields : List (String × JValue))

/-- A JavaScript object: ordered fields, keys unique. -/
abbrev JObj := List (String × JValue)

/-- Property read: `o[k]`, `undefined` rendered as `none`. -/
def getKey (o : JObj) (k : String) : Option JValue :=
  (o.find? (fun kv => kv.1 = k)).map (·.2)

/-- Property write: `o[k] = v`; replaces the existing binding in place,
appends a fresh binding at the end (JS insertion-order semantics). -/
def setKey : JObj → String → JValue → JObj
  | [], k, v => [(k, v)]
  | (k', v') :: rest, k, v =>
    if k' = k then (k, v) :: rest else (k', v') :: setKey rest k v

/-- `Array.isArray`. -/
def isArrayJ : JValue → Bool
  | .arr _ => true
  | _ => false

/-- The exact message thrown by `mergeOptions` on every failure path. -/
def invalidOptionsMsg : String := "Invalid options from file and/or parameter"

/-- One iteration of the `for (const [key, value] of Object.entries(parameterOptions))`
loop in `mergeOptions` (src/options.ts lines 142-163): absent key is set;
array/non-array mismatch throws; two arrays concatenate (existing then new);
two non-arrays overwrite with the parameter value. -/
def mergeStep (acc : Except String JObj) (kv : String × JValue) : Except String JObj :=
  match acc with
  | .error e => .error e
  | .ok o =>
  match getKey o kv.1 with
  | none => .ok (setKey o kv.1 kv.2)
  | some existingValue =>
    if !isArrayJ kv.2 then
      if isArrayJ existingValue then
        .error invalidOptionsMsg
      else
        .ok (setKey o kv.1 kv.2)
    else
      match existingValue with
      | .arr xs =>
        match kv.2 with
        | .arr ys => .ok (setKey o kv.1 (.arr (xs ++ ys)))
        | _ => .error invalidOptionsMsg
      | _ => .error invalidOptionsMsg

/-- The whole merge loop over the parameter entries. -/
def mergeLoop (fileOptions : JObj) (parameterOptions : JObj) : Except String JObj :=
  parameterOptions.foldl mergeStep (.ok fileOptions)

/-- `isOptions` (src/options.ts lines 119-121): both required keys present. -/
def isOptionsObj (o : JObj) : Bool :=
  (getKey o "inputFiles").isSome && (getKey o "outputFile").isSome

/-- Property read on a JSON value, as JS `value.key`: `undefined` on
non-objects (the typed code only ever applies it to objects). -/
def getField (v : JValue) (k : String) : Option JValue :=
  match v with
  | .obj fields => getKey fields k
  | _ => none

/-- JS strict equality `===` restricted to the shapes that occur as `key` /
`name` fields.  Primitives compare structurally; `undefined === undefined` is
true; arrays and objects compare by reference, and the compared values in
`mergeOptions` always come from distinct parse nodes, so they are modelled as
never equal. -/
def strictEq : Option JValue → Option JValue → Bool
  | none, none => true
  | some (.str a), some (.str b) => a = b
  | some (.bool a), some (.bool b) => a = b
  | some (.num a), some (.num b) => a = b
  | _, _ => false

/-- The duplicate-removal filter of `mergeOptions` (src/options.ts lines
172-183): keep an element exactly when no *later* element has a strictly equal
`field` value. -/
def dedupLast (field : String) : List JValue → List JValue
  | [] => []
  | x :: rest =>
    if rest.any (fun y => strictEq (getField y field) (getField x field)) then
      dedupLast field rest
    else
      x :: dedupLast field rest

/-- Apply the duplicate removal to one array-valued option (`variables` by
`key`, `styles` by `name`); other shapes are untouched (the typed code
guarantees the value is an array when present). -/
def dedupField (o : JObj) (optionKey field : String) : JObj :=
  match getKey o optionKey with
  | some (.arr xs) => setKey o optionKey (.arr (dedupLast field xs))
  | _ => o

/-- `mergeOptions` (src/options.ts lines 135-186): copy the file options,
fold the parameter entries, validate the required keys, then deduplicate
`variables` and `styles`. -/
def mergeOptions (fileOptions : JObj) (parameterOptions : Option JObj) : Except String JObj :=
  match (match parameterOptions with
         | none => Except.ok fileOptions
         | some p => mergeLoop fileOptions p) with
  | .error e => .error e
  | .ok o =>
    if !isOptionsObj o then
      .error invalidOptionsMsg
    else
      .ok (dedupField (dedupField o "variables" "key") "styles" "name")


/-!
## Argument builder (`arg` in src/pandoc-spec.ts lines 223-245, identical to
`PipeRunner.arg` in src/pipe-runner.ts lines 64-86)

`T` never occurs instantiated beyond strings, booleans and numbers, so the
value universe is the inductive `ArgValue`.  `value ?? defaultValue` is
nullish coalescing: only `undefined` (modelled `none`) falls back.
-/

/-- A value passed to the `arg` helper. -/
inductive ArgValue where
  | str (s : String)
  | bool (b : Bool)
  | num (n : Int)
  deriving DecidableEq

/-- JS `String(value)` on the non-boolean `ArgValue` shapes. -/
def jsString : ArgValue → String
  | .str s => s
  | .bool b => if b then "true" else "false"
  | .num n => toString n

/-- `arg(option, value, defaultValue)`: empty string (no token) when the final
value is `undefined` or boolean `false`; the bare option for boolean `true`;
`option=value` otherwise. -/
def arg (option : String) (value : Option ArgValue) (defaultValue : Option ArgValue) : String :=
  let finalValue := match value with
    | some v => some v
    | none => defaultValue
  match finalValue with
  | some fv =>
    match fv with
    | .bool b => if b then option else ""
    | _ => option ++ "=" ++ jsString fv
  | none => ""

/-!
## Process chain outcomes

`runPandoc` (src/pandoc-spec.ts lines 513-625) builds one promise per stage:
the `close` handler resolves with the exit code (also when nonzero) and
rejects only on a null code (signal termination).  `Promise.all` then either
yields all codes or, via its `.catch`, the list `[-1]`.  The aggregate status
is `codes.reduce((currentCode, code) => currentCode !== 0 ? currentCode : code, 0)`.
-/

/-- How one stage terminated. -/
inductive StageOutcome where
  | exitCode (code : Int)
  | signal (sig : String)
  deriving DecidableEq

/-- Stage terminated by a signal? -/
def isSignalOutcome : StageOutcome → Bool
  | .signal _ => true
  | .exitCode _ => false

/-- The `close` handler of src/pandoc-spec.ts lines 585-595: resolve with the
code (even nonzero), reject on signal termination. -/
def closeOutcome : StageOutcome → Except String Int
  | .exitCode code => .ok code
  | .signal sig => .error ("Terminated by signal " ++ sig)

/-- `Promise.all`: all values, or the error of a rejected entry. -/
def promiseAll : List (Except String Int) → Except String (List Int)
  | [] => .ok []
  | x :: xs =>
    match x with
    | .error e => .error e
    | .ok c =>
      match promiseAll xs with
      | .error e => .error e
      | .ok cs => .ok (c :: cs)

/-- `codes.reduce((currentCode, code) => currentCode !== 0 ? currentCode : code, 0)`. -/
def aggregateStatus (codes : List Int) : Int :=
  codes.foldl (fun currentCode code => if currentCode ≠ 0 then currentCode else code) 0

/-- The status computed by `runPandoc` from the stage outcomes: the
`Promise.all(...).catch(... => [-1])` followed by the reduce. -/
def runPandocStatus (outcomes : List StageOutcome) : Int :=
  let codes := match promiseAll (outcomes.map closeOutcome) with
    | .error _ => [-1]
    | .ok cs => cs
  aggregateStatus codes

/-- The `close` handler of `PipeRunner.spawn` (src/pipe-runner.ts lines
202-217): `none` when it does not settle the stage promise (code 0 on a
non-terminal stage), otherwise the settlement. -/
def prCloseHandler (index : Nat) (command : String) (isLast : Bool) :
    StageOutcome → Option (Except String Unit)
  | .exitCode code =>
    if code ≠ 0 then
      some (.error ("Command[" ++ toString index ++ "] " ++ command ++
        " failed with status " ++ toString code))
    else if isLast then
      some (.ok ())
    else
      none
  | .signal sig =>
    some (.error ("Command[" ++ toString index ++ "] terminated by signal " ++ sig))

/-!
## Typed options and pipeline assembly (src/pandoc-spec.ts lines 256-563)

The `Options` interface of src/pandoc-spec.ts, with `undefined`-able members
as `Option`.  Path handling: `path.resolve` against an absolute base is
modelled by `resolvePath` (no `.`/`..` normalisation — the embedded inputs
never need it); `new URL(rel, import.meta.url).pathname` (the `modulePath`
helper) is modelled as prefixing the bundled-asset directory.  The wall clock
(`adjustedNow`) and `process.platform`/`process.cwd()` live in `Env`.
-/

/-- `Filter.type`. -/
inductive FilterType where
  | lua
  | json
  deriving DecidableEq

/-- `Filter`. -/
structure FilterT where
  type : FilterType
  path : String
  deriving DecidableEq

/-- `Variable`. -/
structure VariableT where
  key : String
  value : Option String
  deriving DecidableEq

/-- `Style`. -/
structure StyleT where
  sname : String
  className : String
  deriving DecidableEq

/-- `AdditionalOption`. -/
structure AdditionalOptionT where
  option : String
  value : Option String
  deriving DecidableEq

/-- The `Options` interface (src/pandoc-spec.ts lines 77-127), required
members unwrapped. -/
structure OptionsT where
  verbose : Option Bool
  autoDate : Option Bool
  inputFormat : Option String
  outputFormat : Option String
  shiftHeadingLevelBy : Option Int
  numberSections : Option Bool
  generateTOC : Option Bool
  filters : Option (List FilterT)
  templateFile : Option String
  headerFile : Option String
  footerFile : Option String
  varList : Option (List VariableT)
  styles : Option (List StyleT)
  inputDirectory : Option String
  inputFiles : List String
  cssFiles : Option (List String)
  resourceFiles : Option (List String)
  outputDirectory : Option String
  outputFile : String
  additionalOptions : Option (List AdditionalOptionT)
  watch : Option Bool
  watchWait : Option Int
  deriving DecidableEq

/-- Ambient process state. -/
structure Env where
  cwd : String
  moduleDir : String
  todayISO : String
  isWindows : Bool
  deriving DecidableEq

/-- POSIX absolute path (leading slash). -/
def isAbsolutePath (p : String) : Bool :=
  match p.toList with
  | c :: _ => c == '/'
  | [] => false

/-- JS `String.prototype.includes` restricted to one-character needles. -/
def includesChar (s : String) (c : Char) : Bool :=
  s.toList.any (fun a => a == c)

/-- `path.resolve(base, p)` for an absolute `base` (no dot-segment
normalisation; the embedded inputs contain none). -/
def resolvePath (base p : String) : String :=
  if isAbsolutePath p then p else base ++ "/" ++ p

/-- `workingPath` (src/file.ts lines 41-43): resolve against the working
directory, pass `undefined` through. -/
def workingPathM (env : Env) : Option String → Option String
  | some p => some (resolvePath env.cwd p)
  | none => none

/-- `modulePath` (src/file.ts lines 14-16) applied to the `"../pandoc/..."`
literals: the bundled-asset location, abstracted as a prefix. -/
def modulePathM (env : Env) (rel : String) : String :=
  env.moduleDir ++ "/" ++ rel

/-- `options.outputFormat ?? "html"`. -/
def outputFormatOf (o : OptionsT) : String :=
  o.outputFormat.getD "html"

/-- `options.filters ?? []`. -/
def filtersOf (o : OptionsT) : List FilterT :=
  o.filters.getD []

/-- Lua filters: `type !== "json"`, paths through `workingPath`. -/
def luaFiltersOf (env : Env) (o : OptionsT) : List String :=
  ((filtersOf o).filter (fun f => f.type ≠ .json)).map (fun f => resolvePath env.cwd f.path)

/-- JSON filters: `type === "json"`; a path containing `/` goes through
`workingPath`, a bare command name is kept as-is. -/
def jsonFiltersOf (env : Env) (o : OptionsT) : List String :=
  ((filtersOf o).filter (fun f => f.type = .json)).map
    (fun f => if includesChar f.path '/' then resolvePath env.cwd f.path else f.path)

/-- `workingPath(options.templateFile ?? (outputFormat === "html" ? modulePath(...) : undefined))`. -/
def templateFileOf (env : Env) (o : OptionsT) : Option String :=
  workingPathM env (match o.templateFile with
    | some t => some t
    | none =>
      if outputFormatOf o = "html" then some (modulePathM env "../pandoc/template.html")
      else none)

/-- Styles become variables with a `-style` key suffix and a leading space in
the value; `toc-header` is appended when absent (lines 336-347). -/
def variablesOf (o : OptionsT) : List VariableT :=
  let vs := o.varList.getD [] ++
    (o.styles.getD []).map (fun style => ⟨style.sname ++ "-style", some (" " ++ style.className)⟩)
  if vs.any (fun v => v.key = "toc-header") then vs
  else vs ++ [⟨"toc-header", some "Table of Contents"⟩]

/-- `options.cssFiles ?? []`. -/
def cssFilesOf (o : OptionsT) : List String :=
  o.cssFiles.getD []

/-- One character of the URI-scheme tail `[A-Za-z0-9+\-.]`. -/
def isURIChar (c : Char) : Bool :=
  c.isAlpha || c.isDigit || c = '+' || c = '-' || c = '.'

/-- Tail of the test `/^[A-Za-z][A-Za-z0-9+\-.]+:/`: at least one scheme
character, then a colon. -/
def uriTail : List Char → Nat → Bool
  | [], _ => false
  | c :: rest, n =>
    if c = ':' then decide (1 ≤ n)
    else if isURIChar c then uriTail rest (n + 1)
    else false

/-- The URI-scheme test applied to CSS entries (line 333). -/
def isURIRef (s : String) : Bool :=
  match s.toList with
  | [] => false
  | c :: rest => c.isAlpha && uriTail rest 0

/-- Core SCSS/CSS/map assets (line 330), present only for HTML output. -/
def coreCSSFilesOf (env : Env) (o : OptionsT) : List String :=
  if outputFormatOf o = "html" then
    [resolvePath env.cwd (modulePathM env "../pandoc/pandoc-spec.scss"),
     resolvePath env.cwd (modulePathM env "../pandoc/pandoc-spec.css"),
     resolvePath env.cwd (modulePathM env "../pandoc/pandoc-spec.css.map")]
  else []

/-- `inputResourceFiles` (line 333): non-URI CSS entries, core assets,
resource files. -/
def inputResourceFilesOf (env : Env) (o : OptionsT) : List String :=
  (cssFilesOf o).filter (fun cssFile => !isURIRef cssFile) ++
    coreCSSFilesOf env o ++ o.resourceFiles.getD []

/-- The big Pandoc argument list `args` (src/pandoc-spec.ts lines 349-366). -/
def buildPandocArgs (env : Env) (o : OptionsT) : List String :=
  ([arg "--verbose" (o.verbose.map .bool) none,
    arg "--metadata"
      (if o.autoDate.getD false then some (.str ("date:" ++ env.todayISO)) else none) none,
    arg "--from" (o.inputFormat.map .str) (some (.str "markdown")),
    arg "--shift-heading-level-by" (o.shiftHeadingLevelBy.map .num) (some (.num (-1))),
    arg "--number-sections" (o.numberSections.map .bool) (some (.bool true)),
    arg "--toc" (o.generateTOC.map .bool) (some (.bool true)),
    arg "--lua-filter"
      (some (.str (resolvePath env.cwd (modulePathM env "../pandoc/include-files.lua")))) none,
    arg "--lua-filter"
      (some (.str (resolvePath env.cwd (modulePathM env "../pandoc/include-code-files.lua")))) none] ++
   (luaFiltersOf env o).map (fun luaFilter => arg "--lua-filter" (some (.str luaFilter)) none) ++
   [arg "--template" ((templateFileOf env o).map .str) none,
    arg "--include-before-body" ((workingPathM env o.headerFile).map .str) none,
    arg "--include-after-body" ((workingPathM env o.footerFile).map .str) none] ++
   (variablesOf o).map (fun entry =>
     arg "--variable"
       (some (.str (match entry.value with
         | some v => entry.key ++ ":" ++ v
         | none => entry.key))) none) ++
   (cssFilesOf o).map (fun cssFile => arg "--css" (some (.str cssFile)) none) ++
   (o.additionalOptions.getD []).map (fun a => arg a.option (a.value.map .str) none) ++
   o.inputFiles).filter (fun a => a ≠ "")

/-- One pipe-run descriptor (`PipeRun`, src/pandoc-spec.ts lines 457-482).
`mermaidEnv` records whether the environment was augmented with
`MERMAID_FILTER_FORMAT=svg`. -/
structure PipeRun where
  shell : Bool
  command : String
  args : List String
  pipeOutput : Bool
  mermaidEnv : Bool
  deriving DecidableEq

/-- One external-filter stage of the loop at lines 534-551: shell on Windows,
the target output format as the single argument, the Mermaid environment
exactly for the command `mermaid-filter`. -/
def filterStage (isWindows : Bool) (outputFormat : String) (filter : String) : PipeRun :=
  { shell := isWindows
    command := filter
    args := [outputFormat]
    pipeOutput := true
    mermaidEnv := filter == "mermaid-filter" }

/-- The ordered stage list assembled by `runPandoc` (lines 519-563): the
engine-input stage, the filter loop over
`["mermaid-filter", "pandoc-defref", ...jsonFilters]`, the engine-output
stage. -/
def buildPipeRuns (isWindows : Bool) (pandocArgs : List String)
    (outputFormat outputPath : String) (jsonFilters : List String) : List PipeRun :=
  [{ shell := false
     command := "pandoc"
     args := ["--standalone"] ++ pandocArgs ++ [arg "--to" (some (.str "json")) none]
     pipeOutput := true
     mermaidEnv := false }] ++
  (["mermaid-filter", "pandoc-defref"] ++ jsonFilters).map (filterStage isWindows outputFormat) ++
  [{ shell := false
     command := "pandoc"
     args := ["--standalone", arg "--from" (some (.str "json")) none,
              arg "--to" (some (.str outputFormat)) none,
              arg "--output" (some (.str outputPath)) none]
     pipeOutput := false
     mermaidEnv := false }]

/-- `path.resolve(options.inputDirectory)` with `process.cwd()` fallback. -/
def inputDirectoryOf (env : Env) (o : OptionsT) : String :=
  match o.inputDirectory with
  | some d => resolvePath env.cwd d
  | none => env.cwd

/-- `path.resolve(options.outputDirectory)` with `process.cwd()` fallback. -/
def outputDirectoryOf (env : Env) (o : OptionsT) : String :=
  match o.outputDirectory with
  | some d => resolvePath env.cwd d
  | none => env.cwd

/-- The values of the enclosing `pandocSpec` scope captured by the chokidar
`"all"` handler (src/pandoc-spec.ts lines 429-447): exactly the arguments of
its `runPandoc(inputDirectory, inputResourceFiles, outputDirectory,
options.outputFile, outputFormat, args, jsonFilters)` call, plus the
platform. -/
structure WatchClosure where
  inputDirectory : String
  inputResourceFiles : List String
  outputDirectory : String
  outputFile : String
  outputFormat : String
  pandocArgs : List String
  jsonFilters : List String
  isWindows : Bool
  deriving DecidableEq

/-- The closure `pandocSpec` builds once per invocation from the merged
options (lines 311-366). -/
def pandocSpecClosure (env : Env) (o : OptionsT) : WatchClosure :=
  { inputDirectory := inputDirectoryOf env o
    inputResourceFiles := inputResourceFilesOf env o
    outputDirectory := outputDirectoryOf env o
    outputFile := o.outputFile
    outputFormat := outputFormatOf o
    pandocArgs := buildPandocArgs env o
    jsonFilters := jsonFiltersOf env o
    isWindows := env.isWindows }

/-- The stage list `runPandoc` assembles from those values. -/
def stagesOfClosure (c : WatchClosure) : List PipeRun :=
  buildPipeRuns c.isWindows c.pandocArgs c.outputFormat
    (resolvePath c.outputDirectory c.outputFile) c.jsonFilters

/-- The stage list of the initial run of `pandocSpec` on merged options `o`. -/
def initialStages (env : Env) (o : OptionsT) : List PipeRun :=
  stagesOfClosure (pandocSpecClosure env o)

/-- The stage list of a watch-triggered rerun.  The handler at lines 439-443
calls `runPandoc` with only closure-captured values; `freshOptions` — the
configuration as it stands on disk when the rerun fires — is not consulted by
the code. -/
def watchRerunStages (c : WatchClosure) (_freshOptions : OptionsT) : List PipeRun :=
  stagesOfClosure c

/-- Outcome of one `pandocSpec` invocation: the returned status and whether
the chokidar watcher was installed. -/
structure SpecRunResult where
  status : Int
  watcherInstalled : Bool
  deriving DecidableEq

/-- Lines 389-392 and 451: run the pipeline once, then install the watcher
only when the status is zero, `watch === true`, and
`process.env["GITHUB_ACTIONS"] !== "true"`; always return the first run's
status. -/
def pandocSpecResult (outcomes : List StageOutcome) (watch : Option Bool)
    (inGithubAction : Bool) : SpecRunResult :=
  let status := runPandocStatus outcomes
  { status := status
    watcherInstalled := status == 0 && watch == some true && !inGithubAction }

/-- `copyFiles` (src/file.ts lines 54-74) on the already-expanded glob
matches (`globIterateSync` yields the path itself for an existing literal
path; absolute patterns yield absolute paths): each source resolves to
`path.resolve(toDirectory, sourceFile)`, a destination equal to
`path.resolve(sourceFile)` is fatal, otherwise the pair is copied. -/
def copyFiles (cwd : String) (sourceFiles : List String) (toDirectory : String) :
    Except String (List (String × String)) :=
  match sourceFiles with
  | [] => .ok []
  | sourceFile :: rest =>
    let destinationFile := resolvePath (resolvePath cwd toDirectory) sourceFile
    if destinationFile = resolvePath cwd sourceFile then
      .error ("File " ++ sourceFile ++ " cannot be copied to itself.")
    else
      match copyFiles cwd rest toDirectory with
      | .error e => .error e
      | .ok others => .ok ((sourceFile, destinationFile) :: others)

/-!
## Concrete values used by the witness theorems
-/

/-- A concrete environment: POSIX platform, `/work` working directory,
bundled assets under `/mod`. -/
def env0 : Env :=
  { cwd := "/work", moduleDir := "/mod", todayISO := "2026-02-03", isWindows := false }

/-- Minimal valid options: one input file and the output file, nothing else. -/
def optsBase : OptionsT :=
  { verbose := none, autoDate := none, inputFormat := none, outputFormat := none
    shiftHeadingLevelBy := none, numberSections := none, generateTOC := none
    filters := none, templateFile := none, headerFile := none, footerFile := none
    varList := none, styles := none, inputDirectory := none, inputFiles := ["a.md"]
    cssFiles := none, resourceFiles := none, outputDirectory := none
    outputFile := "out.html", additionalOptions := none, watch := none, watchWait := none }

/-- `optsBase` plus one declared external-process (json) filter. -/
def optsOneFilter : OptionsT :=
  { optsBase with filters := some [{ type := .json, path := "myfilter" }] }

/-- The variable `{key: "a", value: "1"}`. -/
def varA1 : JValue := .obj [("key", .str "a"), ("value", .str "1")]

/-- The variable `{key: "b", value: "2"}`. -/
def varB2 : JValue := .obj [("key", .str "b"), ("value", .str "2")]

/-- The variable `{key: "a", value: "3"}`. -/
def varA3 : JValue := .obj [("key", .str "a"), ("value", .str "3")]

/-- A valid options object whose `variables` array is `[{a,1},{b,2},{a,3}]`. -/
def dupVarsObj : JObj :=
  [("inputFiles", .arr [.str "a.md"]), ("outputFile", .str "out.html"),
   ("variables", .arr [varA1, varB2, varA3])]

/-- File options for the C1 witness: `cssFiles` is `["x.css"]`. -/
def fileOptsW : JObj :=
  [("inputFiles", .arr [.str "a.md"]), ("outputFile", .str "out.html"),
   ("cssFiles", .arr [.str "x.css"])]

/-!
## Supporting lemmas
-/

theorem map_command_filterStage (isWindows : Bool) (fmt : String) (jfs : List String) :
    List.map ((fun s => s.command) ∘ filterStage isWindows fmt) jfs = jfs := by
  induction jfs with
  | nil => rfl
  | cons f fs ih =>
    rw [List.map_cons, ih]
    rfl

theorem foldl_first_nonzero_sticky (codes : List Int) (a : Int) (ha : a ≠ 0) :
    codes.foldl (fun currentCode code => if currentCode ≠ 0 then currentCode else code) a = a := by
  induction codes with
  | nil => rfl
  | cons c cs ih =>
    rw [List.foldl_cons]
    show cs.foldl _ (if a ≠ 0 then a else c) = a
    rw [if_pos ha]
    exact ih

theorem aggregateStatus_eq_find (codes : List Int) :
    aggregateStatus codes = ((codes.find? (fun c => c != 0)).getD 0) := by
  induction codes with
  | nil => rfl
  | cons c cs ih =>
    by_cases hc : c = 0
    · subst hc
      rw [List.find?_cons_of_neg _ (by simp)]
      have h0 : aggregateStatus ((0 : Int) :: cs) = aggregateStatus cs := by
        show cs.foldl _ (if (0 : Int) ≠ 0 then 0 else 0) = _
        norm_num [aggregateStatus]
      rw [h0, ih]
    · rw [List.find?_cons_of_pos _ (by simpa using hc)]
      have hagg : aggregateStatus (c :: cs) = c := by
        show cs.foldl _ (if (0 : Int) ≠ 0 then 0 else c) = c
        rw [if_neg (by simp)]
        exact foldl_first_nonzero_sticky cs c hc
      rw [hagg]
      rfl

theorem promiseAll_map_exitCode (codes : List Int) :
    promiseAll ((codes.map StageOutcome.exitCode).map closeOutcome) = .ok codes := by
  induction codes with
  | nil => rfl
  | cons c cs ih =>
    simp only [List.map_cons]
    rw [show promiseAll (closeOutcome (StageOutcome.exitCode c) ::
          List.map closeOutcome (List.map StageOutcome.exitCode cs)) =
        (match promiseAll (List.map closeOutcome (List.map StageOutcome.exitCode cs)) with
         | .error e => .error e
         | .ok cs' => Except.ok (c :: cs')) from rfl, ih]

theorem runPandocStatus_exit_runs (codes : List Int) :
    runPandocStatus (codes.map .exitCode) = aggregateStatus codes := by
  show aggregateStatus
      (match promiseAll ((codes.map StageOutcome.exitCode).map closeOutcome) with
       | .error _ => [-1]
       | .ok cs => cs) = aggregateStatus codes
  rw [promiseAll_map_exitCode]

theorem promiseAll_error_of_any_signal (outcomes : List StageOutcome)
    (h : outcomes.any isSignalOutcome = true) :
    ∃ e, promiseAll (outcomes.map closeOutcome) = .error e := by
  induction outcomes with
  | nil => simp at h
  | cons o os ih =>
    cases o with
    | signal sig => exact ⟨_, rfl⟩
    | exitCode c =>
      simp only [List.any_cons, isSignalOutcome, Bool.false_or] at h
      obtain ⟨e, he⟩ := ih h
      exact ⟨e, by simp [promiseAll, closeOutcome, he]⟩

/-!
## Claim theorems
-/

/-- C3: for every pipeline run in which each stage exits with a code, the
recorded result is the first nonzero exit code, or `0` when all codes are
zero; in particular a run whose terminal stage exits `2` after two clean
stages records `2`. -/
theorem runPandoc_status_first_nonzero (codes : List Int) :
    runPandocStatus (codes.map .exitCode) = ((codes.find? (fun c => c != 0)).getD 0)
  ∧ runPandocStatus [.exitCode 0, .exitCode 0, .exitCode 2] = 2 :=
  ⟨(runPandocStatus_exit_runs codes).trans (aggregateStatus_eq_find codes), rfl⟩

/-- C4 counterexample: in the assembled pipeline the first external-filter
stage is `mermaid-filter`, not `pandoc-defref` — the claimed order
(cross-reference filter first, diagram filter second) is false on the
concrete no-user-filter pipeline. -/
theorem filter_order_counterexample :
    (buildPipeRuns false [] "html" "/out/out.html" []).map (fun s => s.command) =
      ["pandoc", "mermaid-filter", "pandoc-defref", "pandoc"]
  ∧ (buildPipeRuns false [] "html" "/out/out.html" []).map (fun s => s.command) ≠
      ["pandoc", "pandoc-defref", "mermaid-filter", "pandoc"] := by
  refine ⟨rfl, ?_⟩
  decide

/-- C4 amended: the external-process filter stages appear between the
engine-input and engine-output stages in the fixed order `mermaid-filter`,
then `pandoc-defref`, then the user-declared json filters in declared order,
and every filter stage receives the target output format as its sole
argument. -/
theorem buildPipeRuns_filter_order (isWindows : Bool) (pandocArgs : List String)
    (outputFormat outputPath : String) (jsonFilters : List String) :
    (buildPipeRuns isWindows pandocArgs outputFormat outputPath jsonFilters).map
        (fun s => s.command) =
      ["pandoc", "mermaid-filter", "pandoc-defref"] ++ jsonFilters ++ ["pandoc"]
  ∧ ((buildPipeRuns isWindows pandocArgs outputFormat outputPath jsonFilters).drop 1).dropLast =
      (["mermaid-filter", "pandoc-defref"] ++ jsonFilters).map (filterStage isWindows outputFormat)
  ∧ ∀ f : String, (filterStage isWindows outputFormat f).args = [outputFormat] := by
  refine ⟨?_, ?_, fun f => rfl⟩
  · simp [buildPipeRuns, filterStage, map_command_filterStage]
  · simp only [buildPipeRuns, List.cons_append, List.nil_append, List.append_assoc,
      List.drop_one, List.tail_cons, List.dropLast_concat]

/-- C5: the assembled stage list always has `4 + n` entries for `n` declared
external-process filters — exactly 4 with none declared, exactly 5 with one,
the user filter sitting right after the two bundled filter stages and
receiving the resolved output format as its only argument. -/
theorem stage_count_spec (env : Env) (o : OptionsT) :
    (initialStages env o).length = 4 + (jsonFiltersOf env o).length
  ∧ (jsonFiltersOf env o = [] → (initialStages env o).length = 4)
  ∧ ∀ f, jsonFiltersOf env o = [f] →
      (initialStages env o).length = 5 ∧
      (initialStages env o).get? 3 = some (filterStage env.isWindows (outputFormatOf o) f) ∧
      (filterStage env.isWindows (outputFormatOf o) f).args = [outputFormatOf o] := by
  refine ⟨?_, ?_, ?_⟩
  · simp [initialStages, stagesOfClosure, pandocSpecClosure, buildPipeRuns]
    omega
  · intro h
    simp [initialStages, stagesOfClosure, pandocSpecClosure, buildPipeRuns, h]
  · intro f h
    refine ⟨?_, ?_, rfl⟩
    · simp [initialStages, stagesOfClosure, pandocSpecClosure, buildPipeRuns, h]
    · simp [initialStages, stagesOfClosure, pandocSpecClosure, buildPipeRuns, h, List.get?]

/-- C5 witness: with `optsOneFilter` (a single declared json filter
`myfilter`) the pipeline has 5 stages and stage 3 is the `myfilter` stage. -/
theorem stage_count_spec_witness :
    jsonFiltersOf env0 optsOneFilter = ["myfilter"]
  ∧ (initialStages env0 optsOneFilter).length = 5
  ∧ (initialStages env0 optsOneFilter).get? 3 =
      some (filterStage env0.isWindows (outputFormatOf optsOneFilter) "myfilter") := by
  have hjf : jsonFiltersOf env0 optsOneFilter = ["myfilter"] := by rfl
  have h := (stage_count_spec env0 optsOneFilter).2.2 "myfilter" hjf
  exact ⟨hjf, h.1, h.2.1⟩

/-- C6: the `arg` helper follows the three-way rule — no token when the
resolved value is `undefined` or boolean `false`, the bare option for boolean
`true`, and `option=value` otherwise; including the three concrete instances
from the specification. -/
theorem arg_three_way_rule (option : String) (value defaultValue : Option ArgValue) :
    arg option value defaultValue =
      (match (match value with | some v => some v | none => defaultValue) with
       | none => ""
       | some (.bool true) => option
       | some (.bool false) => ""
       | some (.str s) => option ++ "=" ++ s
       | some (.num n) => option ++ "=" ++ toString n)
  ∧ arg "--toc" (some (.bool false)) (some (.bool true)) = ""
  ∧ arg "--toc" none (some (.bool true)) = "--toc"
  ∧ arg "--shift-heading-level-by" (some (.num (-1))) (some (.num (-1))) =
      "--shift-heading-level-by=-1" := by
  refine ⟨?_, rfl, rfl, rfl⟩
  cases value with
  | none =>
    cases defaultValue with
    | none => rfl
    | some d =>
      cases d with
      | str s => rfl
      | bool b => cases b <;> rfl
      | num n => rfl
  | some v =>
    cases v with
    | str s => rfl
    | bool b => cases b <;> rfl
    | num n => rfl

/-- C7 counterexample: in `runPandoc` a signal-terminated run records the
numeric status `-1` — the same value as a run whose stage exits with code
`-1` — so signal termination is coerced into a numeric exit status, not kept
as a distinct condition. -/
theorem signal_coerced_counterexample :
    runPandocStatus [.exitCode 0, .signal "SIGKILL", .exitCode 0] = -1
  ∧ runPandocStatus [.exitCode 0, .exitCode (-1), .exitCode 0] = -1 := ⟨rfl, rfl⟩

/-- C7 amended: the `PipeRunner.spawn` close handler surfaces a null exit
code as an explicit `terminated by signal` rejection, while `runPandoc`
catches the per-stage signal rejection and coerces the run's status to the
numeric `-1`. -/
theorem signal_termination_amended (index : Nat) (command : String) (isLast : Bool)
    (sig : String) (outcomes : List StageOutcome)
    (h : outcomes.any isSignalOutcome = true) :
    prCloseHandler index command isLast (.signal sig) =
      some (.error ("Command[" ++ toString index ++ "] terminated by signal " ++ sig))
  ∧ runPandocStatus outcomes = -1 := by
  refine ⟨rfl, ?_⟩
  obtain ⟨e, he⟩ := promiseAll_error_of_any_signal outcomes h
  simp [runPandocStatus, he, aggregateStatus]

/-- C7 witness: a concrete two-stage run whose second stage is killed. -/
theorem signal_termination_amended_witness :
    prCloseHandler 1 "mermaid-filter" false (.signal "SIGKILL") =
      some (.error ("Command[" ++ toString 1 ++ "] terminated by signal " ++ "SIGKILL"))
  ∧ runPandocStatus [.exitCode 0, .signal "SIGKILL"] = -1 :=
  signal_termination_amended 1 "mermaid-filter" false "SIGKILL"
    [.exitCode 0, .signal "SIGKILL"] rfl

/-- C8 counterexample: a watch-triggered rerun does not rebuild the pipeline
from the current options file — with an initial configuration without
filters and a fresh file declaring one json filter, the rerun still has 4
stages while a fresh resolution would have 5. -/
theorem watch_rerun_counterexample :
    watchRerunStages (pandocSpecClosure env0 optsBase) optsOneFilter ≠
      initialStages env0 optsOneFilter := by
  intro h
  have hlen := congrArg List.length h
  rw [show (watchRerunStages (pandocSpecClosure env0 optsBase) optsOneFilter).length = 4 from rfl,
      show (initialStages env0 optsOneFilter).length = 5 from rfl] at hlen
  exact absurd hlen (by decide)

/-- C8 amended: a watch-triggered rerun replays exactly the pipeline computed
at the initial invocation; it is independent of the content of the options
file at rerun time. -/
theorem watch_rerun_replays_initial (env : Env) (o fresh1 fresh2 : OptionsT) :
    watchRerunStages (pandocSpecClosure env o) fresh1 = initialStages env o
  ∧ watchRerunStages (pandocSpecClosure env o) fresh1 =
      watchRerunStages (pandocSpecClosure env o) fresh2 := ⟨rfl, rfl⟩

/-- C9: evaluation at the failing input — `copyFiles` resolves an
absolute-path source to itself as destination and raises the fatal
`cannot be copied to itself` error instead of copying it to the
output-directory root; relative sources are copied preserving relative
structure; a source resolving to its own destination is fatal. -/
theorem copyFiles_absolute_entry_fatal :
    copyFiles "/work" ["/mod/pandoc/pandoc-spec.css"] "/out" =
      .error "File /mod/pandoc/pandoc-spec.css cannot be copied to itself."
  ∧ copyFiles "/work" ["css/spec.css"] "/out" = .ok [("css/spec.css", "/out/css/spec.css")]
  ∧ copyFiles "/work" ["x.css"] "/work" = .error "File x.css cannot be copied to itself." := by
  refine ⟨?_, ?_, ?_⟩ <;> rfl

/-- C10: the watcher is installed only when the first run's status is `0`,
`watch` is `true` and the process is not a GitHub Action; after a failed
first run the failure status is returned and no watcher is started. -/
theorem watcher_only_after_success (outcomes : List StageOutcome) (watch : Option Bool)
    (inGithubAction : Bool) :
    ((pandocSpecResult outcomes watch inGithubAction).watcherInstalled = true ↔
      (runPandocStatus outcomes = 0 ∧ watch = some true ∧ inGithubAction = false))
  ∧ (runPandocStatus outcomes ≠ 0 →
      (pandocSpecResult outcomes watch inGithubAction).watcherInstalled = false ∧
      (pandocSpecResult outcomes watch inGithubAction).status = runPandocStatus outcomes) := by
  constructor
  · simp [pandocSpecResult, Bool.and_eq_true, and_assoc]
  · intro h
    refine ⟨?_, rfl⟩
    simp [pandocSpecResult, h]

/-- C10 witness: a failed first run (terminal stage exits `3`) with watch
requested outside a GitHub Action installs no watcher and returns `3`. -/
theorem watcher_only_after_success_witness :
    (pandocSpecResult [.exitCode 3] (some true) false).watcherInstalled = false
  ∧ (pandocSpecResult [.exitCode 3] (some true) false).status =
      runPandocStatus [.exitCode 3] :=
  (watcher_only_after_success [.exitCode 3] (some true) false).2 (by decide)

/-!
## Merge lemmas (for C1 and C2)
-/

theorem getKey_cons (k' : String) (v' : JValue) (o : JObj) (k : String) :
    getKey ((k', v') :: o) k = if k' = k then some v' else getKey o k := by
  by_cases h : k' = k <;> simp [getKey, List.find?_cons, h]

theorem getKey_setKey_self (o : JObj) (k : String) (v : JValue) :
    getKey (setKey o k v) k = some v := by
  induction o with
  | nil => simp [setKey, getKey_cons]
  | cons kv rest ih =>
    obtain ⟨k', v'⟩ := kv
    by_cases h : k' = k
    · simp [setKey, h, getKey_cons]
    · simp [setKey, h, getKey_cons, ih]

theorem getKey_setKey_other (o : JObj) (k' k : String) (v : JValue) (h : k' ≠ k) :
    getKey (setKey o k' v) k = getKey o k := by
  induction o with
  | nil => simp [setKey, getKey_cons, h]
  | cons kv rest ih =>
    obtain ⟨k'', v''⟩ := kv
    by_cases h2 : k'' = k'
    · subst h2
      simp [setKey, getKey_cons, h]
    · simp [setKey, h2, getKey_cons, ih]

theorem mergeStep_error (e : String) (kv : String × JValue) :
    mergeStep (.error e) kv = .error e := rfl

theorem foldl_mergeStep_error (entries : List (String × JValue)) (e : String) :
    List.foldl mergeStep (.error e) entries = .error e := by
  induction entries with
  | nil => rfl
  | cons kv rest ih =>
    rw [List.foldl_cons, mergeStep_error]
    exact ih

theorem mergeStep_ok_eq (o : JObj) (k' : String) (v' : JValue) :
    mergeStep (.ok o) (k', v') =
      (match getKey o k' with
       | none => .ok (setKey o k' v')
       | some existingValue =>
         if !isArrayJ v' then
           if isArrayJ existingValue then .error invalidOptionsMsg
           else .ok (setKey o k' v')
         else
           match existingValue with
           | .arr xs =>
             match v' with
             | .arr ys => .ok (setKey o k' (.arr (xs ++ ys)))
             | _ => .error invalidOptionsMsg
           | _ => .error invalidOptionsMsg) := rfl

theorem mergeStep_none (o : JObj) (k' : String) (v' : JValue) (h : getKey o k' = none) :
    mergeStep (.ok o) (k', v') = .ok (setKey o k' v') := by
  rw [mergeStep_ok_eq, h]

theorem mergeStep_both_arr (o : JObj) (k' : String) (xs ys : List JValue)
    (h : getKey o k' = some (.arr xs)) :
    mergeStep (.ok o) (k', .arr ys) = .ok (setKey o k' (.arr (xs ++ ys))) := by
  rw [mergeStep_ok_eq, h]
  simp [isArrayJ]

theorem mergeStep_scalar (o : JObj) (k' : String) (v' w : JValue)
    (h : getKey o k' = some w) (hw : isArrayJ w = false) (hv : isArrayJ v' = false) :
    mergeStep (.ok o) (k', v') = .ok (setKey o k' v') := by
  rw [mergeStep_ok_eq, h]
  simp [hw, hv]

theorem mergeStep_mismatch (o : JObj) (k' : String) (v' w : JValue)
    (h : getKey o k' = some w) (hmis : isArrayJ w ≠ isArrayJ v') :
    mergeStep (.ok o) (k', v') = .error invalidOptionsMsg := by
  rw [mergeStep_ok_eq, h]
  cases v' <;> cases w <;> simp_all [isArrayJ]

theorem mergeStep_ok_shape (o o₁ : JObj) (kv : String × JValue)
    (h : mergeStep (.ok o) kv = .ok o₁) : ∃ w, o₁ = setKey o kv.1 w := by
  obtain ⟨k', v'⟩ := kv
  rw [mergeStep_ok_eq] at h
  cases hg : getKey o k' with
  | none =>
    rw [hg] at h
    exact ⟨v', (Except.ok.inj h).symm⟩
  | some w =>
    rw [hg] at h
    cases v' <;> cases w <;> simp [isArrayJ] at h <;> exact ⟨_, h.symm⟩

theorem mergeStep_error_msg (o : JObj) (kv : String × JValue) (e : String)
    (h : mergeStep (.ok o) kv = .error e) : e = invalidOptionsMsg := by
  obtain ⟨k', v'⟩ := kv
  rw [mergeStep_ok_eq] at h
  cases hg : getKey o k' with
  | none =>
    rw [hg] at h
    exact absurd h (by simp)
  | some w =>
    rw [hg] at h
    cases v' <;> cases w <;> simp [isArrayJ] at h <;> exact h.symm

theorem foldl_mergeStep_preserves (entries : List (String × JValue)) (k : String)
    (hk : ∀ kv ∈ entries, kv.1 ≠ k) :
    ∀ o r : JObj, List.foldl mergeStep (.ok o) entries = .ok r → getKey r k = getKey o k := by
  induction entries with
  | nil =>
    intro o r h
    rw [List.foldl_nil] at h
    rw [← Except.ok.inj h]
  | cons kv rest ih =>
    intro o r h
    rw [List.foldl_cons] at h
    cases hstep : mergeStep (.ok o) kv with
    | error e =>
      rw [hstep, foldl_mergeStep_error] at h
      exact Except.noConfusion h
    | ok o₁ =>
      rw [hstep] at h
      have h1 : getKey o₁ k = getKey o k := by
        obtain ⟨w, rfl⟩ := mergeStep_ok_shape o o₁ kv hstep
        exact getKey_setKey_other o kv.1 k w (hk kv (by simp))
      rw [ih (fun kv2 hm => hk kv2 (by simp [hm])) o₁ r h, h1]

theorem foldl_mergeStep_error_msg (entries : List (String × JValue)) :
    ∀ o : JObj, ∀ e : String,
      List.foldl mergeStep (.ok o) entries = .error e → e = invalidOptionsMsg := by
  induction entries with
  | nil =>
    intro o e h
    rw [List.foldl_nil] at h
    exact Except.noConfusion h
  | cons kv rest ih =>
    intro o e h
    rw [List.foldl_cons] at h
    cases hstep : mergeStep (.ok o) kv with
    | error e' =>
      rw [hstep, foldl_mergeStep_error] at h
      rw [← Except.error.inj h]
      exact mergeStep_error_msg o kv e' hstep
    | ok o₁ =>
      rw [hstep] at h
      exact ih o₁ e h

theorem getKey_dedupField_other (o : JObj) (optionKey field k : String) (h : optionKey ≠ k) :
    getKey (dedupField o optionKey field) k = getKey o k := by
  cases hg : getKey o optionKey with
  | none => simp [dedupField, hg]
  | some w =>
    cases w <;> simp [dedupField, hg]
    exact getKey_setKey_other o optionKey k _ h

theorem mergeOptions_some_eq (fileO p : JObj) :
    mergeOptions fileO (some p) =
      (match mergeLoop fileO p with
       | .error e => .error e
       | .ok o =>
         if !isOptionsObj o then .error invalidOptionsMsg
         else .ok (dedupField (dedupField o "variables" "key") "styles" "name")) := rfl

/-- C1: for a key present in the parameter options (and not subject to the
`variables`/`styles` deduplication), `mergeOptions` sets the key when the file
options lack it; concatenates file array then parameter array,
length-preserving, when both values are arrays; fails with the
configuration-shape error when exactly one of the two is an array; and
overwrites the file scalar with the parameter scalar otherwise. -/
theorem mergeOptions_per_key (file pre post : JObj) (k : String) (v : JValue)
    (hpre : ∀ kv ∈ pre, kv.1 ≠ k) (hpost : ∀ kv ∈ post, kv.1 ≠ k)
    (hk1 : k ≠ "variables") (hk2 : k ≠ "styles") :
    (getKey file k = none →
      ∀ r, mergeOptions file (some (pre ++ (k, v) :: post)) = .ok r → getKey r k = some v)
  ∧ (∀ xs ys, getKey file k = some (.arr xs) → v = .arr ys →
      ∀ r, mergeOptions file (some (pre ++ (k, v) :: post)) = .ok r →
        getKey r k = some (.arr (xs ++ ys)) ∧ (xs ++ ys).length = xs.length + ys.length)
  ∧ (∀ w, getKey file k = some w → isArrayJ w ≠ isArrayJ v →
      mergeOptions file (some (pre ++ (k, v) :: post)) = .error invalidOptionsMsg)
  ∧ (∀ w, getKey file k = some w → isArrayJ w = false → isArrayJ v = false →
      ∀ r, mergeOptions file (some (pre ++ (k, v) :: post)) = .ok r → getKey r k = some v) := by
  -- a successful merge routes the key through the dedup-免 part unchanged
  have hded : ∀ o : JObj,
      getKey (dedupField (dedupField o "variables" "key") "styles" "name") k = getKey o k := by
    intro o
    rw [getKey_dedupField_other _ _ _ _ (fun h => hk2 h.symm),
        getKey_dedupField_other _ _ _ _ (fun h => hk1 h.symm)]
  -- successful merges factor through a successful loop
  have hloop : ∀ r, mergeOptions file (some (pre ++ (k, v) :: post)) = .ok r →
      ∃ o, mergeLoop file (pre ++ (k, v) :: post) = .ok o ∧ getKey r k = getKey o k := by
    intro r h
    rw [mergeOptions_some_eq] at h
    split at h
    · exact Except.noConfusion h
    · rename_i o' heq
      split at h
      · exact Except.noConfusion h
      · exact ⟨o', heq, by rw [← Except.ok.inj h, hded o']⟩
  -- a successful loop reaches the `(k, v)` entry with the file value intact
  have hmid : ∀ o : JObj, mergeLoop file (pre ++ (k, v) :: post) = .ok o →
      ∃ o₁ o₂, getKey o₁ k = getKey file k ∧
        mergeStep (.ok o₁) (k, v) = .ok o₂ ∧ getKey o k = getKey o₂ k := by
    intro o h
    unfold mergeLoop at h
    rw [List.foldl_append, List.foldl_cons] at h
    cases hp : List.foldl mergeStep (.ok file) pre with
    | error e =>
      rw [hp, mergeStep_error, foldl_mergeStep_error] at h
      exact Except.noConfusion h
    | ok o₁ =>
      rw [hp] at h
      cases hstep : mergeStep (.ok o₁) (k, v) with
      | error e =>
        rw [hstep, foldl_mergeStep_error] at h
        exact Except.noConfusion h
      | ok o₂ =>
        rw [hstep] at h
        exact ⟨o₁, o₂, foldl_mergeStep_preserves pre k hpre file o₁ hp, hstep,
          foldl_mergeStep_preserves post k hpost o₂ o h⟩
  refine ⟨?_, ?_, ?_, ?_⟩
  · -- absent key: set
    intro hnone r h
    obtain ⟨o, hm, hro⟩ := hloop r h
    obtain ⟨o₁, o₂, h1, hstep, h2⟩ := hmid o hm
    have : mergeStep (.ok o₁) (k, v) = .ok (setKey o₁ k v) :=
      mergeStep_none o₁ k v (h1.trans hnone)
    rw [hro, h2, ← Except.ok.inj (this.symm.trans hstep), getKey_setKey_self]
  · -- both arrays: concatenate
    intro xs ys harr hv r h
    subst hv
    obtain ⟨o, hm, hro⟩ := hloop r h
    obtain ⟨o₁, o₂, h1, hstep, h2⟩ := hmid o hm
    have : mergeStep (.ok o₁) (k, .arr ys) = .ok (setKey o₁ k (.arr (xs ++ ys))) :=
      mergeStep_both_arr o₁ k xs ys (h1.trans harr)
    refine ⟨?_, by simp⟩
    rw [hro, h2, ← Except.ok.inj (this.symm.trans hstep), getKey_setKey_self]
  · -- exactly one array: configuration-shape error
    intro w hw hmis
    rw [mergeOptions_some_eq]
    cases hm : mergeLoop file (pre ++ (k, v) :: post) with
    | error e =>
      have : e = invalidOptionsMsg := by
        unfold mergeLoop at hm
        exact foldl_mergeStep_error_msg _ file e hm
      rw [this]
    | ok o =>
      exfalso
      obtain ⟨o₁, o₂, h1, hstep, _⟩ := hmid o hm
      have : mergeStep (.ok o₁) (k, v) = .error invalidOptionsMsg :=
        mergeStep_mismatch o₁ k v w (h1.trans hw) hmis
      exact Except.noConfusion (hstep.symm.trans this)
  · -- neither array: parameter scalar overwrites
    intro w hw hwf hvf r h
    obtain ⟨o, hm, hro⟩ := hloop r h
    obtain ⟨o₁, o₂, h1, hstep, h2⟩ := hmid o hm
    have : mergeStep (.ok o₁) (k, v) = .ok (setKey o₁ k v) :=
      mergeStep_scalar o₁ k v w (h1.trans hw) hwf hvf
    rw [hro, h2, ← Except.ok.inj (this.symm.trans hstep), getKey_setKey_self]

/-- C1 witness: merging file `cssFiles = ["x.css"]` with parameter
`cssFiles = ["y.css"]` yields the concatenation `["x.css", "y.css"]`. -/
theorem mergeOptions_per_key_witness :
    ∃ r, mergeOptions fileOptsW (some [("cssFiles", .arr [.str "y.css"])]) = .ok r ∧
      getKey r "cssFiles" = some (.arr [.str "x.css", .str "y.css"]) ∧
      ([JValue.str "x.css"] ++ [JValue.str "y.css"]).length =
        [JValue.str "x.css"].length + [JValue.str "y.css"].length := by
  have happ : ([] : JObj) ++ ("cssFiles", JValue.arr [.str "y.css"]) :: ([] : JObj) =
      [("cssFiles", JValue.arr [.str "y.css"])] := rfl
  have h := (mergeOptions_per_key fileOptsW [] [] "cssFiles" (.arr [.str "y.css"])
      (by simp) (by simp) (by decide) (by decide)).2.1
      [.str "x.css"] [.str "y.css"] (by rfl) rfl
  rw [happ] at h
  obtain ⟨r, hr⟩ : ∃ r, mergeOptions fileOptsW (some [("cssFiles", .arr [.str "y.css"])]) =
      .ok r := ⟨_, by rfl⟩
  obtain ⟨h1, h2⟩ := h r hr
  exact ⟨r, hr, h1, h2⟩

theorem dedupLast_sublist (field : String) (xs : List JValue) :
    (dedupLast field xs).Sublist xs := by
  induction xs with
  | nil => simp [dedupLast]
  | cons x rest ih =>
    rw [dedupLast]
    split
    · exact ih.trans (List.sublist_cons_self x rest)
    · exact ih.cons₂ x

theorem dedupLast_pairwise (field : String) (xs : List JValue) :
    (dedupLast field xs).Pairwise
      (fun a b => strictEq (getField b field) (getField a field) = false) := by
  induction xs with
  | nil => simp [dedupLast]
  | cons x rest ih =>
    rw [dedupLast]
    split
    · exact ih
    · rename_i hany
      refine List.Pairwise.cons ?_ ih
      intro y hy
      have hmem : y ∈ rest := (dedupLast_sublist field rest).subset hy
      by_contra hne
      exact hany (List.any_eq_true.mpr ⟨y, hmem, by simpa using hne⟩)

theorem dedupLast_mem_last (field : String) (l₁ l₂ : List JValue) (x : JValue)
    (h : ∀ y ∈ l₂, strictEq (getField y field) (getField x field) = false) :
    x ∈ dedupLast field (l₁ ++ x :: l₂) := by
  induction l₁ with
  | nil =>
    have hno : (l₂.any fun y => strictEq (getField y field) (getField x field)) = false := by
      rw [List.any_eq_false]
      intro y hy
      simp [h y hy]
    simp only [List.nil_append]
    rw [dedupLast, hno]
    simp
  | cons z l₁ ih =>
    rw [List.cons_append, dedupLast]
    split
    · exact ih
    · exact List.mem_cons_of_mem z ih

/-- C2 counterexample: merging `variables = [{a,1},{b,2},{a,3}]` yields
`[{b,2},{a,3}]` — the surviving `a` entry carries the last occurrence's value
but sits at the position of the *last* occurrence, not at index 0 — so the
claimed result `[{a,3},{b,2}]` is false on this input. -/
theorem dedup_position_counterexample :
    mergeOptions dupVarsObj none =
      .ok [("inputFiles", .arr [.str "a.md"]), ("outputFile", .str "out.html"),
           ("variables", .arr [varB2, varA3])]
  ∧ mergeOptions dupVarsObj none ≠
      .ok [("inputFiles", .arr [.str "a.md"]), ("outputFile", .str "out.html"),
           ("variables", .arr [varA3, varB2])] := by
  have h1 : mergeOptions dupVarsObj none =
      .ok [("inputFiles", .arr [.str "a.md"]), ("outputFile", .str "out.html"),
           ("variables", .arr [varB2, varA3])] := by rfl
  refine ⟨h1, ?_⟩
  intro h2
  have h3 := Except.ok.inj (h1.symm.trans h2)
  simp [varA1, varB2, varA3] at h3

/-- C2 amended: deduplication keeps, for each duplicate group, the last
occurrence's element at the position of the *last* occurrence (earlier
duplicates are dropped): `[{a,1},{b,2},{a,3}]` merges to `[{b,2},{a,3}]`;
in general the result is a subsequence of the input, its keys are pairwise
non-equal, and every element with no later equal-keyed element survives. -/
theorem mergeOptions_dedup_keeps_last :
    mergeOptions dupVarsObj none =
      .ok [("inputFiles", .arr [.str "a.md"]), ("outputFile", .str "out.html"),
           ("variables", .arr [varB2, varA3])]
  ∧ (∀ field xs, (dedupLast field xs).Sublist xs)
  ∧ (∀ field xs, (dedupLast field xs).Pairwise
      (fun a b => strictEq (getField b field) (getField a field) = false))
  ∧ (∀ field l₁ l₂ x, (∀ y ∈ l₂, strictEq (getField y field) (getField x field) = false) →
      x ∈ dedupLast field (l₁ ++ x :: l₂)) :=
  ⟨by rfl, dedupLast_sublist, dedupLast_pairwise, dedupLast_mem_last⟩

/-- C2 witness: the last occurrence `{a,3}` survives deduplication of
`[{a,1},{b,2},{a,3}]`. -/
theorem mergeOptions_dedup_keeps_last_witness :
    varA3 ∈ dedupLast "key" [varA1, varB2, varA3] :=
  mergeOptions_dedup_keeps_last.2.2.2 "key" [varA1, varB2] [] varA3 (by simp)
